import Mathlib

/-!
Verification of the RT_Academy questionnaire engines and financial calculators.

This development shallowly embeds the Python sources:
  * `src/assessments/financiele_apk.py` (ConditionalQuestion, CategoryProgress,
    CategoricalQuestionnaire),
  * `src/utils/questionnaire.py` (sequential Questionnaire),
  * `src/calculators/compound_interest.py` (calculate_investment_growth),
  * `src/calculators/debt_payoff.py` (calculate_payoff and the two orderings).

Python runtime values stored in the session's answer maps are modelled by the
inductive `Value`; Python `==` is modelled by `pyEq` (booleans compare equal to
the integers 0/1, as in Python, where `bool` is a subclass of `int`); `str()`
is modelled by `pyStr` (string escapes inside list rendering are not
reproduced; only emptiness after stripping is ever consumed).  Python `dict`s
are modelled by insertion-ordered association lists with first-occurrence
lookup and replace-or-append assignment, matching CPython's ordered dicts.
Floating-point arithmetic in the calculators is modelled by exact rationals.
-/

namespace RTAcademy

/-- A Python value as stored in an answer map or used as a condition value:
`None`, a `bool`, an `int`, a `str`, or a `list` of values. -/
inductive Value where
  | none : Value
  | bool (b : Bool) : Value
  | int (n : Int) : Value
  | str (s : String) : Value
  | list (vs : List Value) : Value
deriving Repr

mutual
/-- Decidable equality for `Value` (the nested `list` constructor prevents
automatic derivation). -/
def Value.decEq : (a b : Value) → Decidable (a = b)
  | .none, .none => isTrue rfl
  | .none, .bool _ => isFalse (fun h => Value.noConfusion h)
  | .none, .int _ => isFalse (fun h => Value.noConfusion h)
  | .none, .str _ => isFalse (fun h => Value.noConfusion h)
  | .none, .list _ => isFalse (fun h => Value.noConfusion h)
  | .bool _, .none => isFalse (fun h => Value.noConfusion h)
  | .bool a, .bool b =>
    if h : a = b then isTrue (by rw [h]) else isFalse (by simp [h])
  | .bool _, .int _ => isFalse (fun h => Value.noConfusion h)
  | .bool _, .str _ => isFalse (fun h => Value.noConfusion h)
  | .bool _, .list _ => isFalse (fun h => Value.noConfusion h)
  | .int _, .none => isFalse (fun h => Value.noConfusion h)
  | .int _, .bool _ => isFalse (fun h => Value.noConfusion h)
  | .int a, .int b =>
    if h : a = b then isTrue (by rw [h]) else isFalse (by simp [h])
  | .int _, .str _ => isFalse (fun h => Value.noConfusion h)
  | .int _, .list _ => isFalse (fun h => Value.noConfusion h)
  | .str _, .none => isFalse (fun h => Value.noConfusion h)
  | .str _, .bool _ => isFalse (fun h => Value.noConfusion h)
  | .str _, .int _ => isFalse (fun h => Value.noConfusion h)
  | .str a, .str b =>
    if h : a = b then isTrue (by rw [h]) else isFalse (by simp [h])
  | .str _, .list _ => isFalse (fun h => Value.noConfusion h)
  | .list _, .none => isFalse (fun h => Value.noConfusion h)
  | .list _, .bool _ => isFalse (fun h => Value.noConfusion h)
  | .list _, .int _ => isFalse (fun h => Value.noConfusion h)
  | .list _, .str _ => isFalse (fun h => Value.noConfusion h)
  | .list a, .list b =>
    match Value.decEqList a b with
    | isTrue h => isTrue (by rw [h])
    | isFalse h => isFalse (by simp [h])

/-- Decidable equality for lists of `Value`s. -/
def Value.decEqList : (a b : List Value) → Decidable (a = b)
  | [], [] => isTrue rfl
  | [], _ :: _ => isFalse (fun h => List.noConfusion h)
  | _ :: _, [] => isFalse (fun h => List.noConfusion h)
  | x :: xs, y :: ys =>
    match Value.decEq x y, Value.decEqList xs ys with
    | isTrue h1, isTrue h2 => isTrue (by rw [h1, h2])
    | isFalse h1, _ => isFalse (by simp [h1])
    | _, isFalse h2 => isFalse (by simp [h2])
end

instance : DecidableEq Value := Value.decEq

/-- Numeric view used by Python `==`: Python's `bool` is a subclass of `int`,
so `True == 1` and `False == 0`. -/
def Value.numVal : Value → Option Int
  | .bool b => some (if b then 1 else 0)
  | .int n => some n
  | _ => Option.none

mutual
/-- Python `==` on modelled values. -/
def pyEq : Value → Value → Bool
  | .str s, .str t => s == t
  | .none, .none => true
  | .list vs, .list ws => pyEqList vs ws
  | a, b =>
    match a.numVal, b.numVal with
    | some m, some n => m == n
    | _, _ => false

/-- Elementwise Python `==` on lists. -/
def pyEqList : List Value → List Value → Bool
  | [], [] => true
  | v :: vs, w :: ws => pyEq v w && pyEqList vs ws
  | _, _ => false
end

/-- Python membership `x in l` for a list `l` (identity folded into `==`). -/
def pyMem (x : Value) (l : List Value) : Bool :=
  l.any (fun e => pyEq x e)

mutual
/-- Python `str()` of a modelled value.  List elements are rendered with
`repr`-style quotes around strings; escape sequences are not reproduced, which
is irrelevant here because only emptiness after stripping is consumed. -/
def pyStr : Value → String
  | .none => "None"
  | .bool b => if b then "True" else "False"
  | .int n => toString n
  | .str s => s
  | .list vs => "[" ++ pyStrList vs ++ "]"

/-- Comma-separated `repr`s of list elements. -/
def pyStrList : List Value → String
  | [] => ""
  | [v] => pyRepr v
  | v :: vs => pyRepr v ++ ", " ++ pyStrList vs

/-- Python `repr()` of a modelled value (strings gain quotes). -/
def pyRepr : Value → String
  | .str s => "'" ++ s ++ "'"
  | .none => "None"
  | .bool b => if b then "True" else "False"
  | .int n => toString n
  | .list vs => "[" ++ pyStrList vs ++ "]"
end

/-- ASCII whitespace stripped by Python's `str.strip()` (the rarely used
non-ASCII Unicode spaces are not modelled). -/
def pyIsSpace (c : Char) : Bool :=
  c = ' ' || c = '\t' || c = '\n' || c = '\r' || c = '\x0b' || c = '\x0c'

/-- Python `str.strip()`: remove leading and trailing whitespace. -/
def pyStrip (s : String) : String :=
  String.mk (((s.data.dropWhile pyIsSpace).reverse.dropWhile pyIsSpace).reverse)

/-- An answer map: a Python `dict` keyed by question key, modelled as an
insertion-ordered association list. -/
abbrev AnswerMap := List (String × Value)

/-- `d.get(k)` / `d[k]`-style lookup: first (and in a dict, only) occurrence. -/
def dictGet {α : Type} (d : List (String × α)) (k : String) : Option α :=
  match d with
  | [] => Option.none
  | (k', v) :: rest => if k' = k then some v else dictGet rest k

/-- `d[k] = v`: replace the value at an existing key in place, else append,
matching CPython's insertion-ordered dict assignment. -/
def dictSet {α : Type} (d : List (String × α)) (k : String) (v : α) :
    List (String × α) :=
  match d with
  | [] => [(k, v)]
  | (k', v') :: rest =>
    if k' = k then (k', v) :: rest else (k', v') :: dictSet rest k v

/-- `dst.update(src)`: assign every key/value pair of `src` into `dst`. -/
def dictUpdate {α : Type} (dst src : List (String × α)) : List (String × α) :=
  src.foldl (fun m kv => dictSet m kv.1 kv.2) dst

/-- `data.get(self.condition_key)` as seen by `should_show`: an absent key and
a stored `None` are both Python `None`. -/
def pyGet (d : AnswerMap) (k : String) : Value :=
  (dictGet d k).getD Value.none

/-- `ConditionalQuestion.should_show` from
`src/assessments/financiele_apk.py` (lines 206-219): the guard is checked
against the answer map, with the empty-string sentinel, list-of-acceptable
values, required-string-in-list-answer and plain-equality cases, in source
order. -/
def should_show (condition_value : Value) (condition_key : String)
    (data : AnswerMap) : Bool :=
  let current_value := pyGet data condition_key
  -- Special case for text fields - show if field is not empty
  if condition_value = Value.str "" then
    !(current_value == Value.none) && (pyStrip (pyStr current_value) != "")
  else
    -- Handle different comparison types
    match condition_value, current_value with
    | .list l, cur => pyMem cur l
    | .str s, .list l => pyMem (.str s) l
    | cv, cur => pyEq cur cv

/-- The four-case visibility rule exactly as the specification words it; used
only to be compared with `should_show`, which is embedded from the source. -/
def shouldShowSpec (condition_value : Value) (condition_key : String)
    (data : AnswerMap) : Prop :=
  if condition_value = Value.str "" then
    pyGet data condition_key ≠ Value.none ∧
      pyStrip (pyStr (pyGet data condition_key)) ≠ ""
  else
    match condition_value, pyGet data condition_key with
    | .list l, answer => pyMem answer l = true
    | .str s, .list ans => pyMem (.str s) ans = true
    | cv, answer => pyEq answer cv = true

mutual
/-- Reflexivity of the modelled Python `==`. -/
theorem pyEq_refl : ∀ v : Value, pyEq v v = true
  | .none => rfl
  | .bool b => by cases b <;> rfl
  | .int n => by
    show (n == n) = true
    exact beq_self_eq_true n
  | .str s => by
    show (s == s) = true
    exact beq_self_eq_true s
  | .list vs => pyEqList_refl vs

/-- Reflexivity of elementwise Python `==`. -/
theorem pyEqList_refl : ∀ vs : List Value, pyEqList vs vs = true
  | [] => rfl
  | v :: vs => by
    show (pyEq v v && pyEqList vs vs) = true
    rw [pyEq_refl v, pyEqList_refl vs]
    rfl
end

/-- C1: `ConditionalQuestion.should_show` decides visibility by exactly the
four-case rule: empty-string sentinel means the referenced answer exists and
is non-empty after stripping whitespace; a list condition means membership of
the answer in the list; a string condition with a list answer means membership
of the condition in the answer; otherwise exact (Python) equality. -/
theorem should_show_four_case_rule (cv : Value) (ck : String) (d : AnswerMap) :
    should_show cv ck d = true ↔ shouldShowSpec cv ck d := by
  unfold should_show shouldShowSpec
  by_cases h : cv = Value.str ""
  · simp only [h, if_pos rfl]
    cases hv : pyGet d ck <;> simp [hv]
  · rw [if_neg h, if_neg h]
    cases cv <;> cases hv : pyGet d ck <;> simp [hv]

/-!  ## Sequential questionnaire engine (`src/utils/questionnaire.py`)

The engine only reads a question's `key`; `render` belongs to the excluded
presentation layer, which hands back the current on-screen value, so renders
are modelled as `Value` inputs to the navigation clicks. -/

/-- A question as seen by the sequential engine: only its session key. -/
structure SeqQuestion where
  key : String
deriving Repr, DecidableEq

/-- The slice of Streamlit session state owned by one sequential
`Questionnaire`: the `<prefix>_<name>_step` and `<prefix>_<name>_data` slots,
each possibly absent. -/
structure SeqSession where
  step? : Option Nat
  data? : Option AnswerMap
deriving Repr, DecidableEq

namespace Questionnaire

/-- `Questionnaire._initialize_session_state`: create each slot if absent. -/
def _initialize_session_state (s : SeqSession) : SeqSession :=
  { step? := some (s.step?.getD 0), data? := some (s.data?.getD []) }

/-- `Questionnaire._get_current_step`: read the step slot, defaulting to 0. -/
def _get_current_step (s : SeqSession) : Nat :=
  s.step?.getD 0

/-- `Questionnaire._set_current_step`. -/
def _set_current_step (s : SeqSession) (step : Nat) : SeqSession :=
  { s with step? := some step }

/-- `Questionnaire._get_stored_data`: read the data slot, defaulting to `{}`. -/
def _get_stored_data (s : SeqSession) : AnswerMap :=
  s.data?.getD []

/-- `Questionnaire._store_answer`. -/
def _store_answer (s : SeqSession) (question_key : String) (value : Value) :
    SeqSession :=
  { s with data? := some (dictSet (_get_stored_data s) question_key value) }

/-- `Questionnaire.reset`: delete both session slots. -/
def reset (_s : SeqSession) : SeqSession :=
  { step? := Option.none, data? := Option.none }

/-- `Questionnaire.is_complete`: the current step has passed the last
question. -/
def is_complete (questions : List SeqQuestion) (s : SeqSession) : Bool :=
  questions.length ≤ _get_current_step s

/-- `Questionnaire.get_data`: the collected data when complete, else `None`. -/
def get_data (questions : List SeqQuestion) (s : SeqSession) :
    Option AnswerMap :=
  if is_complete questions s then some (_get_stored_data s) else Option.none

/-- One execution of `run()` in which the user clicks the "Volgende"/"Voltooi"
button: initialize state, and if a question is on screen, persist its current
on-screen value `v` and advance (to `step + 1`, or to `len(questions)` from
the last question, which is the same number). -/
def clickNext (questions : List SeqQuestion) (s : SeqSession) (v : Value) :
    SeqSession :=
  let s := _initialize_session_state s
  let current_step := _get_current_step s
  if h : current_step < questions.length then
    let q := questions.get ⟨current_step, h⟩
    let s := _store_answer s q.key v
    if current_step < questions.length - 1 then
      _set_current_step s (current_step + 1)
    else
      _set_current_step s questions.length
  else s

/-- One execution of `run()` in which the user clicks the "Vorige" button
(only rendered when `current_step > 0` and a question is on screen): persist
the on-screen value and step back. -/
def clickPrev (questions : List SeqQuestion) (s : SeqSession) (v : Value) :
    SeqSession :=
  let s := _initialize_session_state s
  let current_step := _get_current_step s
  if h : current_step < questions.length ∧ 0 < current_step then
    let q := questions.get ⟨current_step, h.1⟩
    let s := _store_answer s q.key v
    _set_current_step s (current_step - 1)
  else s

/-- One execution of `run()` with no button click: initialize state, return
the stored data when complete; the resulting session state. -/
def runRender (questions : List SeqQuestion) (s : SeqSession) :
    SeqSession × Option AnswerMap :=
  let s := _initialize_session_state s
  (s, if _get_current_step s ≥ questions.length then get_data questions s
      else Option.none)

end Questionnaire

/-- The session state before any slot exists. -/
def emptySession : SeqSession :=
  { step? := Option.none, data? := Option.none }

/-- Fold a sequence of "Next" clicks, each providing the on-screen value. -/
def clicksNext (questions : List SeqQuestion) (s : SeqSession)
    (vs : List Value) : SeqSession :=
  vs.foldl (Questionnaire.clickNext questions) s

/-- Assigning a fresh key into a dict appends the pair at the end. -/
theorem dictSet_append {α : Type} (k : String) (v : α) :
    ∀ d : List (String × α), (∀ p ∈ d, p.1 ≠ k) →
      dictSet d k v = d ++ [(k, v)]
  | [], _ => rfl
  | (k', v') :: rest, h => by
    unfold dictSet
    rw [if_neg (h (k', v') (by simp))]
    rw [dictSet_append k v rest (fun p hp => h p (by simp [hp]))]
    simp

/-- Folding dict assignments of pairwise-fresh keys over a disjoint dict
appends the pairs in order. -/
theorem foldl_dictSet_eq_append {α : Type} :
    ∀ (pairs d : List (String × α)),
      (pairs.map Prod.fst).Nodup → (∀ p ∈ d, ∀ q ∈ pairs, p.1 ≠ q.1) →
      List.foldl (fun m kv => dictSet m kv.1 kv.2) d pairs = d ++ pairs
  | [], d, _, _ => by simp
  | (k, v) :: rest, d, hnd, hdisj => by
    simp only [List.foldl_cons]
    rw [dictSet_append k v d (fun p hp => hdisj p hp (k, v) (by simp))]
    rw [foldl_dictSet_eq_append rest (d ++ [(k, v)])
      (by simp only [List.map_cons] at hnd; exact hnd.of_cons)
      (by
        intro p hp q hq
        rcases List.mem_append.1 hp with hp | hp
        · exact hdisj p hp q (by simp [hq])
        · have hpk : p = (k, v) := by simpa using hp
          subst hpk
          have hnotin : k ∉ rest.map Prod.fst := by
            simp only [List.map_cons, List.nodup_cons] at hnd
            exact hnd.1
          intro hkq
          exact hnotin (by
            rw [show k = q.1 from hkq]
            exact List.mem_map.2 ⟨q, hq, rfl⟩))]
    simp

/-- A "Next" click from an in-progress state stores the on-screen value under
the current question's key and advances one step. -/
theorem clickNext_step (qs : List SeqQuestion) (i : Nat) (d : AnswerMap)
    (v : Value) (h : i < qs.length) :
    Questionnaire.clickNext qs ⟨some i, some d⟩ v =
      ⟨some (i + 1), some (dictSet d (qs.get ⟨i, h⟩).key v)⟩ := by
  unfold Questionnaire.clickNext Questionnaire._initialize_session_state
    Questionnaire._get_current_step Questionnaire._store_answer
    Questionnaire._set_current_step Questionnaire._get_stored_data
  simp only [Option.getD_some]
  rw [dif_pos h]
  by_cases h2 : i < qs.length - 1
  · rw [if_pos h2]
  · rw [if_neg h2]
    have hlen : qs.length = i + 1 := by omega
    simp [hlen]

/-- Folding a run of "Next" clicks from step `i` advances the step by the
number of clicks and assigns each passed question's key its click value. -/
theorem clicksNext_from (qs : List SeqQuestion) :
    ∀ (vs : List Value) (i : Nat) (d : AnswerMap),
      i + vs.length ≤ qs.length →
      clicksNext qs ⟨some i, some d⟩ vs =
        ⟨some (i + vs.length),
         some (List.foldl (fun m kv => dictSet m kv.1 kv.2) d
           ((((qs.drop i).take vs.length).map SeqQuestion.key).zip vs))⟩
  | [], i, d, _ => by simp [clicksNext]
  | v :: vs, i, d, h => by
    have hi : i < qs.length := by
      simp only [List.length_cons] at h
      omega
    simp only [clicksNext, List.foldl_cons]
    rw [clickNext_step qs i d v hi]
    have ih := clicksNext_from qs vs (i + 1)
      (dictSet d (qs.get ⟨i, hi⟩).key v)
      (by simp only [List.length_cons] at h; omega)
    rw [show vs.foldl (Questionnaire.clickNext qs) _ =
        clicksNext qs ⟨some (i + 1),
          some (dictSet d (qs.get ⟨i, hi⟩).key v)⟩ vs from rfl, ih]
    have hdrop : qs.drop i = qs.get ⟨i, hi⟩ :: qs.drop (i + 1) :=
      List.drop_eq_getElem_cons hi
    simp only [List.length_cons, hdrop, List.take_succ_cons, List.map_cons,
      List.zip_cons_cons, List.foldl_cons]
    congr 2
    omega

/-- C2: in a sequential questionnaire over `N` questions with pairwise
distinct keys, after exactly `N` "Next"/"Voltooi" clicks from a freshly
initialized session (whatever on-screen values are submitted), the
questionnaire is complete and `get_data` returns a map whose key list is
exactly the question keys. -/
theorem sequential_next_clicks_complete (qs : List SeqQuestion)
    (vs : List Value) (hnd : (qs.map SeqQuestion.key).Nodup)
    (hlen : vs.length = qs.length) :
    Questionnaire.is_complete qs
        (clicksNext qs (Questionnaire._initialize_session_state emptySession)
          vs) = true ∧
    ∃ d, Questionnaire.get_data qs
          (clicksNext qs
            (Questionnaire._initialize_session_state emptySession) vs) =
            some d ∧
        d.map Prod.fst = qs.map SeqQuestion.key := by
  have hinit : Questionnaire._initialize_session_state emptySession =
      ⟨some 0, some []⟩ := rfl
  have hkeys : ((qs.map SeqQuestion.key).zip vs).map Prod.fst =
      qs.map SeqQuestion.key := by
    apply List.map_fst_zip
    rw [List.length_map, hlen]
  rw [hinit, clicksNext_from qs vs 0 [] (by omega)]
  have htake : (qs.drop 0).take vs.length = qs := by
    rw [List.drop_zero, hlen, List.take_length]
  rw [htake, foldl_dictSet_eq_append _ []
    (by rw [hkeys]; exact hnd) (by simp)]
  refine ⟨?_, (qs.map SeqQuestion.key).zip vs, ?_, hkeys⟩
  · simp [Questionnaire.is_complete, Questionnaire._get_current_step, hlen]
  · simp [Questionnaire.get_data, Questionnaire.is_complete,
      Questionnaire._get_current_step, Questionnaire._get_stored_data, hlen]

/-- Witness for C2 at a concrete two-question questionnaire. -/
theorem sequential_next_clicks_complete_witness :
    Questionnaire.is_complete [⟨"income"⟩, ⟨"expenses"⟩]
        (clicksNext [⟨"income"⟩, ⟨"expenses"⟩]
          (Questionnaire._initialize_session_state emptySession)
          [.int 1200, .int 900]) = true ∧
    ∃ d, Questionnaire.get_data [⟨"income"⟩, ⟨"expenses"⟩]
          (clicksNext [⟨"income"⟩, ⟨"expenses"⟩]
            (Questionnaire._initialize_session_state emptySession)
            [.int 1200, .int 900]) = some d ∧
        d.map Prod.fst = [SeqQuestion.mk "income",
          SeqQuestion.mk "expenses"].map SeqQuestion.key :=
  sequential_next_clicks_complete [⟨"income"⟩, ⟨"expenses"⟩]
    [.int 1200, .int 900] (by decide) (by decide)

/-- Looking up the key just assigned returns the assigned value. -/
theorem dictGet_dictSet_self {α : Type} (k : String) (v : α) :
    ∀ d : List (String × α), dictGet (dictSet d k v) k = some v
  | [] => by simp [dictSet, dictGet]
  | (k', v') :: rest => by
    unfold dictSet
    by_cases h : k' = k
    · simp [dictGet, h]
    · simp [dictGet, h, dictGet_dictSet_self k v rest]

/-- Assigning one key leaves lookups of other keys unchanged. -/
theorem dictGet_dictSet_ne {α : Type} (k k' : String) (v : α) (hne : k' ≠ k) :
    ∀ d : List (String × α), dictGet (dictSet d k' v) k = dictGet d k
  | [] => by simp [dictSet, dictGet, hne]
  | (k'', v'') :: rest => by
    unfold dictSet
    by_cases h : k'' = k'
    · subst h
      simp [dictGet, hne]
    · simp [dictGet, h, dictGet_dictSet_ne k k' v hne rest]

/-- Re-assigning the value a key already holds leaves the dict unchanged. -/
theorem dictSet_self_of_get {α : Type} (k : String) (v : α) :
    ∀ d : List (String × α), dictGet d k = some v → dictSet d k v = d
  | [], h => by simp [dictGet] at h
  | (k', v') :: rest, h => by
    unfold dictGet at h
    unfold dictSet
    by_cases hk : k' = k
    · rw [if_pos hk] at h
      rw [if_pos hk]
      simp at h
      rw [h]
    · rw [if_neg hk] at h
      rw [if_neg hk, dictSet_self_of_get k v rest h]

/-- The key of the question currently on screen, if any. -/
def currentKey (questions : List SeqQuestion) (s : SeqSession) :
    Option String :=
  if h : Questionnaire._get_current_step s < questions.length then
    some (questions.get ⟨Questionnaire._get_current_step s, h⟩).key
  else Option.none

/-- A navigation click: `true` for "Volgende"/"Voltooi", `false` for
"Vorige", together with the current on-screen value. -/
def applyClick (questions : List SeqQuestion) (s : SeqSession)
    (c : Bool × Value) : SeqSession :=
  if c.1 then Questionnaire.clickNext questions s c.2
  else Questionnaire.clickPrev questions s c.2

/-- A click sequence is safe for key `k` holding value `v` when every click
taken while question `k` is on screen submits exactly the stored value `v`
(i.e. the user does not edit question `k` again). -/
def safeFor (questions : List SeqQuestion) (k : String) (v : Value) :
    SeqSession → List (Bool × Value) → Bool
  | _, [] => true
  | s, c :: cs =>
    ((currentKey questions s != some k) || decide (c.2 = v)) &&
      safeFor questions k v (applyClick questions s c) cs

/-- Fold a sequence of navigation clicks over the session. -/
def navRun (questions : List SeqQuestion) (s : SeqSession)
    (cs : List (Bool × Value)) : SeqSession :=
  cs.foldl (applyClick questions) s

/-- Initialization does not change the step read out of the session. -/
theorem get_step_of_init (s : SeqSession) :
    Questionnaire._get_current_step
      (Questionnaire._initialize_session_state s) =
    Questionnaire._get_current_step s := by
  cases s with
  | mk st dt => cases st <;> rfl

/-- Initialization does not change the data read out of the session. -/
theorem get_data_of_init (s : SeqSession) :
    Questionnaire._get_stored_data
      (Questionnaire._initialize_session_state s) =
    Questionnaire._get_stored_data s := by
  cases s with
  | mk st dt => cases dt <;> rfl

/-- The data effect of a "Next" click: assign the on-screen value to the
current question's key (no-op when no question is on screen). -/
theorem stored_clickNext (qs : List SeqQuestion) (s : SeqSession) (v : Value) :
    Questionnaire._get_stored_data (Questionnaire.clickNext qs s v) =
      if h : Questionnaire._get_current_step s < qs.length then
        dictSet (Questionnaire._get_stored_data s)
          (qs.get ⟨Questionnaire._get_current_step s, h⟩).key v
      else Questionnaire._get_stored_data s := by
  obtain ⟨st, dt⟩ := s
  cases st <;> cases dt <;>
    (simp only [Questionnaire.clickNext,
      Questionnaire._initialize_session_state,
      Questionnaire._get_current_step, Questionnaire._get_stored_data,
      Questionnaire._store_answer, Questionnaire._set_current_step,
      Option.getD_some, Option.getD_none]
     split
     · split <;> rfl
     · rfl)

/-- The data effect of a "Previous" click: assign the on-screen value to the
current question's key (no-op when unavailable). -/
theorem stored_clickPrev (qs : List SeqQuestion) (s : SeqSession) (v : Value) :
    Questionnaire._get_stored_data (Questionnaire.clickPrev qs s v) =
      if h : Questionnaire._get_current_step s < qs.length ∧
          0 < Questionnaire._get_current_step s then
        dictSet (Questionnaire._get_stored_data s)
          (qs.get ⟨Questionnaire._get_current_step s, h.1⟩).key v
      else Questionnaire._get_stored_data s := by
  obtain ⟨st, dt⟩ := s
  cases st <;> cases dt <;>
    (simp only [Questionnaire.clickPrev,
      Questionnaire._initialize_session_state,
      Questionnaire._get_current_step, Questionnaire._get_stored_data,
      Questionnaire._store_answer, Questionnaire._set_current_step,
      Option.getD_some, Option.getD_none]
     split
     · rfl
     · rfl)

/-- A click that is safe for key `k` (either another question is on screen,
or it re-submits the stored value) preserves the stored answer at `k`. -/
theorem applyClick_preserves (qs : List SeqQuestion) (k : String) (v : Value)
    (s : SeqSession) (c : Bool × Value)
    (hstored : dictGet (Questionnaire._get_stored_data s) k = some v)
    (hsafe : ((currentKey qs s != some k) || decide (c.2 = v)) = true) :
    dictGet (Questionnaire._get_stored_data (applyClick qs s c)) k = some v := by
  have key_case :
      ∀ (h : Questionnaire._get_current_step s < qs.length) (w : Value),
        ((currentKey qs s != some k) || decide (w = v)) = true →
        dictGet (dictSet (Questionnaire._get_stored_data s)
          (qs.get ⟨Questionnaire._get_current_step s, h⟩).key w) k = some v := by
    intro h w hw
    by_cases hk : (qs.get ⟨Questionnaire._get_current_step s, h⟩).key = k
    · have hcur : currentKey qs s = some k := by
        unfold currentKey
        rw [dif_pos h, hk]
      rw [hcur] at hw
      simp at hw
      rw [hk, hw, dictGet_dictSet_self]
    · rw [dictGet_dictSet_ne k _ w hk, hstored]
  unfold applyClick
  by_cases hb : c.1
  · rw [if_pos hb, stored_clickNext]
    split
    · exact key_case _ c.2 hsafe
    · exact hstored
  · rw [if_neg hb, stored_clickPrev]
    split
    · exact key_case _ c.2 hsafe
    · exact hstored

/-- A safe click sequence preserves the stored answer at `k`. -/
theorem navRun_preserves (qs : List SeqQuestion) (k : String) (v : Value) :
    ∀ (cs : List (Bool × Value)) (s : SeqSession),
      dictGet (Questionnaire._get_stored_data s) k = some v →
      safeFor qs k v s cs = true →
      dictGet (Questionnaire._get_stored_data (navRun qs s cs)) k = some v
  | [], _, h, _ => h
  | c :: cs, s, h, hsafe => by
    simp only [safeFor, Bool.and_eq_true] at hsafe
    exact navRun_preserves qs k v cs (applyClick qs s c)
      (applyClick_preserves qs k v s c h hsafe.1) hsafe.2

/-- C7: (1) after persisting an answer for key `k`, any sequence of
Previous/Next clicks in which question `k` is only ever re-submitted with its
stored value reproduces that identical stored value; (2) a navigation click
that re-submits the currently stored on-screen value leaves the stored answer
map unchanged (re-persisting is idempotent); (3) re-rendering alone
(`run()` with no click) never mutates the stored answers or the step. -/
theorem sequential_round_trip (qs : List SeqQuestion) (k : String) (v : Value)
    (s : SeqSession) (cs : List (Bool × Value))
    (hsafe : safeFor qs k v (Questionnaire._store_answer s k v) cs = true) :
    dictGet (Questionnaire._get_stored_data
        (navRun qs (Questionnaire._store_answer s k v) cs)) k = some v ∧
    (∀ (s' : SeqSession) (b : Bool) (kq : String) (w : Value),
        currentKey qs s' = some kq →
        dictGet (Questionnaire._get_stored_data s') kq = some w →
        Questionnaire._get_stored_data (applyClick qs s' (b, w)) =
          Questionnaire._get_stored_data s') ∧
    (∀ s' : SeqSession,
        Questionnaire._get_stored_data (Questionnaire.runRender qs s').1 =
          Questionnaire._get_stored_data s' ∧
        Questionnaire._get_current_step (Questionnaire.runRender qs s').1 =
          Questionnaire._get_current_step s') := by
  refine ⟨?_, ?_, ?_⟩
  · apply navRun_preserves qs k v cs _ _ hsafe
    show dictGet (dictSet (Questionnaire._get_stored_data s) k v) k = some v
    exact dictGet_dictSet_self k v _
  · intro s' b kq w hcur hstored
    have hkey : ∀ h : Questionnaire._get_current_step s' < qs.length,
        (qs.get ⟨Questionnaire._get_current_step s', h⟩).key = kq := by
      intro h
      unfold currentKey at hcur
      rw [dif_pos h] at hcur
      exact Option.some.inj hcur
    unfold applyClick
    by_cases hb : b <;> simp only [hb, if_pos, if_neg, Bool.false_eq_true,
      ite_true, ite_false]
    · rw [stored_clickNext]
      split
      · rw [hkey _, dictSet_self_of_get kq w _ hstored]
      · rfl
    · rw [stored_clickPrev]
      split
      · next h => rw [hkey h.1, dictSet_self_of_get kq w _ hstored]
      · rfl
  · intro s'
    exact ⟨get_data_of_init s', get_step_of_init s'⟩

/-- Witness for C7: persist 5 for "a", click Next re-submitting 5, then
answer "b" with 7; the stored value of "a" is still 5. -/
theorem sequential_round_trip_witness :
    dictGet (Questionnaire._get_stored_data
        (navRun [⟨"a"⟩, ⟨"b"⟩]
          (Questionnaire._store_answer ⟨some 0, some []⟩ "a" (.int 5))
          [(true, .int 5), (true, .int 7)])) "a" = some (.int 5) ∧
    (∀ (s' : SeqSession) (b : Bool) (kq : String) (w : Value),
        currentKey [⟨"a"⟩, ⟨"b"⟩] s' = some kq →
        dictGet (Questionnaire._get_stored_data s') kq = some w →
        Questionnaire._get_stored_data (applyClick [⟨"a"⟩, ⟨"b"⟩] s' (b, w)) =
          Questionnaire._get_stored_data s') ∧
    (∀ s' : SeqSession,
        Questionnaire._get_stored_data
            (Questionnaire.runRender [⟨"a"⟩, ⟨"b"⟩] s').1 =
          Questionnaire._get_stored_data s' ∧
        Questionnaire._get_current_step
            (Questionnaire.runRender [⟨"a"⟩, ⟨"b"⟩] s').1 =
          Questionnaire._get_current_step s') :=
  sequential_round_trip [⟨"a"⟩, ⟨"b"⟩] "a" (.int 5) ⟨some 0, some []⟩
    [(true, .int 5), (true, .int 7)] (by decide)

/-!  ## Categorical questionnaire engine (`src/assessments/financiele_apk.py`)

The engine inspects a question only through its `key` and, for
`ConditionalQuestion`s, its `condition_key`/`condition_value` guard; `render`
is the excluded presentation layer and is modelled as a `Value` input. -/

/-- A question as seen by the categorical engine: a plain question, or a
`ConditionalQuestion` (its own key, plus the guard; the wrapped base question
only matters for rendering). -/
inductive CatQuestion where
  | base (key : String) : CatQuestion
  | cond (key : String) (condition_key : String) (condition_value : Value) :
      CatQuestion
deriving Repr, DecidableEq

/-- The session key a question stores its answer under. -/
def CatQuestion.key : CatQuestion → String
  | .base k => k
  | .cond k _ _ => k

/-- `QuestionCategory`: name, description, icon, ordered questions. -/
structure QuestionCategory where
  name : String
  description : String
  icon : String
  questions : List CatQuestion
deriving Repr, DecidableEq

/-- `CategoryProgress`: per-category cursor, completion flag and local data. -/
structure CategoryProgress where
  category_name : String
  current_question : Nat := 0
  completed : Bool := false
  data : AnswerMap := []
deriving Repr, DecidableEq

/-- The slice of Streamlit session state owned by one
`CategoricalQuestionnaire`: the category-index, progress-map and data slots
(each possibly absent) plus the two step-mode flags. -/
structure CatSession where
  current_category? : Option Nat
  progress? : Option (List (String × CategoryProgress))
  data? : Option AnswerMap
  in_stepmode : Bool
  enter_stepmode : Bool
deriving Repr, DecidableEq

/-- Which navigation button, if any, the user clicks during a category
render: "Vorige vraag", "Volgende vraag"/"Voltooien categorie", or
"Sla categorie over". -/
inductive CatClick where
  | none : CatClick
  | prev : CatClick
  | next : CatClick
  | skip : CatClick
deriving Repr, DecidableEq

namespace CategoricalQuestionnaire

/-- `CategoricalQuestionnaire._initialize_session_state`: create each absent
slot; the progress map gets one fresh `CategoryProgress` per category. -/
def _initialize_session_state (categories : List QuestionCategory)
    (s : CatSession) : CatSession :=
  { s with
    current_category? := some (s.current_category?.getD 0),
    progress? := some (s.progress?.getD
      (categories.foldl
        (fun m c => dictSet m c.name { category_name := c.name }) [])),
    data? := some (s.data?.getD []) }

/-- `CategoricalQuestionnaire._get_current_category_index`. -/
def _get_current_category_index (s : CatSession) : Nat :=
  s.current_category?.getD 0

/-- `CategoricalQuestionnaire._get_progress`: the progress map, default `{}`. -/
def _get_progress (s : CatSession) : List (String × CategoryProgress) :=
  s.progress?.getD []

/-- `CategoricalQuestionnaire._update_progress`. -/
def _update_progress (s : CatSession) (category_name : String)
    (progress : CategoryProgress) : CatSession :=
  { s with progress? := some (dictSet (_get_progress s) category_name progress) }

/-- `CategoricalQuestionnaire._get_all_data`: the global answer map. -/
def _get_all_data (s : CatSession) : AnswerMap :=
  s.data?.getD []

/-- `CategoricalQuestionnaire._store_data`: merge `data` into the global
answer map. -/
def _store_data (s : CatSession) (data : AnswerMap) : CatSession :=
  { s with data? := some (dictUpdate (_get_all_data s) data) }

/-- `CategoricalQuestionnaire.reset`: delete every owned session slot. -/
def reset (_s : CatSession) : CatSession :=
  { current_category? := Option.none, progress? := Option.none,
    data? := Option.none, in_stepmode := false, enter_stepmode := false }

/-- `CategoricalQuestionnaire.is_complete`: every progress entry completed
(vacuously true while the progress slot is absent or empty). -/
def is_complete (s : CatSession) : Bool :=
  (_get_progress s).all (fun e => e.2.completed)

/-- `CategoricalQuestionnaire.get_data`: all collected data when complete,
else `None`. -/
def get_data (s : CatSession) : Option AnswerMap :=
  if is_complete s then some (_get_all_data s) else Option.none

/-- `CategoricalQuestionnaire._get_visible_questions`: all plain questions
plus every conditional question whose guard passes against global data
updated with the category's local data. -/
def _get_visible_questions (category : QuestionCategory) (data : AnswerMap)
    (s : CatSession) : List CatQuestion :=
  let all_data := dictUpdate (_get_all_data s) data
  category.questions.filter fun q =>
    match q with
    | .cond _ ck cv => should_show cv ck all_data
    | .base _ => true

/-- The first phase of `_run_category`: fetch the category's progress entry
(present after initialization; the bare `[category.name]` subscript in the
source would raise `KeyError` on the unreachable uninitialized path, modelled
by a fresh default) and merge global data into `progress.data` for every
question key that is globally present but locally absent. -/
def mergedProgress (category : QuestionCategory) (s : CatSession) :
    CategoryProgress :=
  let progress := (dictGet (_get_progress s) category.name).getD
    { category_name := category.name }
  let global_data := _get_all_data s
  { progress with data :=
      (category.questions.foldl
        (fun d q =>
          match dictGet global_data q.key, dictGet d q.key with
          | some gv, Option.none => dictSet d q.key gv
          | _, _ => d)
        progress.data) }

/-- The auto-save phase of `_run_category`: persist the rendered value into
the category's local data, the progress map and the global data, but only
when it `is not None` and differs (Python `!=`) from the previously stored
value. -/
def autoSave (category : QuestionCategory) (s : CatSession)
    (progress : CategoryProgress) (question_key : String)
    (current_value : Value) : CatSession × CategoryProgress :=
  let previous_value := dictGet progress.data question_key
  if current_value ≠ Value.none ∧
      pyEq current_value (previous_value.getD Value.none) = false then
    let progress :=
      { progress with data := dictSet progress.data question_key current_value }
    let s := _update_progress s category.name progress
    let s := _store_data s [(question_key, current_value)]
    (s, progress)
  else (s, progress)

/-- The navigation phase of `_run_category`: each button click updates the
progress entry and triggers `st.rerun()` (so that run returns `None`);
without a click the run returns the category data iff already completed. -/
def clickPhase (category : QuestionCategory) (s : CatSession)
    (progress : CategoryProgress) (visible_questions : List CatQuestion)
    (current_question_idx : Nat) (click : CatClick) :
    CatSession × Option AnswerMap :=
  match click with
  | .prev =>
    if 0 < current_question_idx then
      (_update_progress s category.name
        { progress with
          current_question := max 0 (current_question_idx - 1) },
       Option.none)
    else
      (s, if progress.completed then some progress.data else Option.none)
  | .next =>
    let progress := { progress with
      current_question := current_question_idx + 1 }
    let progress :=
      if visible_questions.length ≤ progress.current_question then
        { progress with completed := true }
      else progress
    (_update_progress s category.name progress, Option.none)
  | .skip =>
    (_update_progress s category.name { progress with completed := true },
     Option.none)
  | .none =>
    (s, if progress.completed then some progress.data else Option.none)

/-- `CategoricalQuestionnaire._run_category`, one render: merge, resolve
visibility, complete degenerate or finished categories, else render the
current question (the presentation layer returns `rendered`), auto-save, and
handle the navigation click. -/
def _run_category (category : QuestionCategory) (s : CatSession)
    (rendered : Value) (click : CatClick) : CatSession × Option AnswerMap :=
  let progress := mergedProgress category s
  let visible_questions := _get_visible_questions category progress.data s
  if visible_questions = [] then
    -- No questions to show, mark as completed
    let progress := { progress with completed := true }
    (_update_progress s category.name progress, some progress.data)
  else if h : visible_questions.length ≤ progress.current_question then
    let progress := { progress with completed := true }
    (_update_progress s category.name progress, some progress.data)
  else
    let question := visible_questions.get
      ⟨progress.current_question, Nat.lt_of_not_le h⟩
    let saved := autoSave category s progress question.key rendered
    clickPhase category saved.1 saved.2 visible_questions
      progress.current_question click

end CategoricalQuestionnaire

/-- C3: in every session state — including the uninitialized one, where the
progress map is read as empty — `is_complete()` is true iff every category
progress entry's `completed` flag is true, and `get_data()` returns the
global answer map exactly when complete and `None` otherwise. -/
theorem categorical_is_complete_get_data (s : CatSession) :
    (CategoricalQuestionnaire.is_complete s = true ↔
      ∀ e ∈ CategoricalQuestionnaire._get_progress s,
        e.2.completed = true) ∧
    (∀ d, CategoricalQuestionnaire.get_data s = some d ↔
      (CategoricalQuestionnaire.is_complete s = true ∧
        d = CategoricalQuestionnaire._get_all_data s)) ∧
    (CategoricalQuestionnaire.get_data s = Option.none ↔
      CategoricalQuestionnaire.is_complete s = false) := by
  refine ⟨by simp [CategoricalQuestionnaire.is_complete], ?_, ?_⟩
  · intro d
    unfold CategoricalQuestionnaire.get_data
    by_cases h : CategoricalQuestionnaire.is_complete s = true
    · simp [h, eq_comm]
    · simp [h]
  · unfold CategoricalQuestionnaire.get_data
    by_cases h : CategoricalQuestionnaire.is_complete s = true <;> simp [h]

/-- Merging pairs that the dict already holds is a no-op. -/
theorem dictUpdate_self {α : Type} :
    ∀ (d g : List (String × α)), (∀ p ∈ d, dictGet g p.1 = some p.2) →
      dictUpdate g d = g
  | [], _, _ => rfl
  | p :: rest, g, h => by
    show dictUpdate (dictSet g p.1 p.2) rest = g
    rw [dictSet_self_of_get p.1 p.2 g (h p (by simp))]
    exact dictUpdate_self rest g (fun q hq => h q (by simp [hq]))

/-- C4: a category whose visible-question list is empty on a render is
immediately marked completed, the render returns the category's (merged)
local data, the global answer map is untouched, and — since every merged
local pair already agrees with the global map — storing the returned
contribution adds no key-value pair to the collected data. -/
theorem category_no_visible_completes (category : QuestionCategory)
    (s : CatSession) (rendered : Value) (click : CatClick)
    (hvis : CategoricalQuestionnaire._get_visible_questions category
      (CategoricalQuestionnaire.mergedProgress category s).data s = [])
    (hagree : ∀ p ∈ (CategoricalQuestionnaire.mergedProgress category s).data,
      dictGet (CategoricalQuestionnaire._get_all_data s) p.1 = some p.2) :
    (dictGet
        (CategoricalQuestionnaire._get_progress
          (CategoricalQuestionnaire._run_category category s rendered
            click).1)
        category.name).map CategoryProgress.completed = some true ∧
    (CategoricalQuestionnaire._run_category category s rendered click).2 =
      some (CategoricalQuestionnaire.mergedProgress category s).data ∧
    CategoricalQuestionnaire._get_all_data
        (CategoricalQuestionnaire._run_category category s rendered click).1 =
      CategoricalQuestionnaire._get_all_data s ∧
    dictUpdate (CategoricalQuestionnaire._get_all_data s)
        (CategoricalQuestionnaire.mergedProgress category s).data =
      CategoricalQuestionnaire._get_all_data s := by
  have hrun : CategoricalQuestionnaire._run_category category s rendered click =
      (CategoricalQuestionnaire._update_progress s category.name
        { CategoricalQuestionnaire.mergedProgress category s with
            completed := true },
       some (CategoricalQuestionnaire.mergedProgress category s).data) := by
    unfold CategoricalQuestionnaire._run_category
    rw [if_pos hvis]
  rw [hrun]
  refine ⟨?_, rfl, rfl, dictUpdate_self _ _ hagree⟩
  unfold CategoricalQuestionnaire._update_progress
    CategoricalQuestionnaire._get_progress
  simp [dictGet_dictSet_self]

/-- Witness for C4: one category whose only question is conditional on a
guard that fails against the empty session. -/
theorem category_no_visible_completes_witness :
    (let category : QuestionCategory :=
      ⟨"Wonen", "Woonsituatie", "🏠", [.cond "huur" "woning" (.str "huur")]⟩
     let s := CategoricalQuestionnaire._initialize_session_state [category]
       (CategoricalQuestionnaire.reset
         ⟨Option.none, Option.none, Option.none, false, false⟩)
     (dictGet
        (CategoricalQuestionnaire._get_progress
          (CategoricalQuestionnaire._run_category category s (.int 0)
            CatClick.none).1)
        category.name).map CategoryProgress.completed = some true ∧
    (CategoricalQuestionnaire._run_category category s (.int 0)
        CatClick.none).2 =
      some (CategoricalQuestionnaire.mergedProgress category s).data ∧
    CategoricalQuestionnaire._get_all_data
        (CategoricalQuestionnaire._run_category category s (.int 0)
          CatClick.none).1 =
      CategoricalQuestionnaire._get_all_data s ∧
    dictUpdate (CategoricalQuestionnaire._get_all_data s)
        (CategoricalQuestionnaire.mergedProgress category s).data =
      CategoricalQuestionnaire._get_all_data s) :=
  category_no_visible_completes
    ⟨"Wonen", "Woonsituatie", "🏠", [.cond "huur" "woning" (.str "huur")]⟩
    (CategoricalQuestionnaire._initialize_session_state
      [⟨"Wonen", "Woonsituatie", "🏠", [.cond "huur" "woning" (.str "huur")]⟩]
      (CategoricalQuestionnaire.reset
        ⟨Option.none, Option.none, Option.none, false, false⟩))
    (.int 0) CatClick.none (by decide) (by decide)

/-- Python `x == None` only holds for `None` itself on our value domain. -/
theorem pyEq_none_right : ∀ v : Value, pyEq v Value.none = true → v = Value.none
  | .none, _ => rfl
  | .bool _, h => Bool.noConfusion h
  | .int _, h => Bool.noConfusion h
  | .str _, h => Bool.noConfusion h
  | .list _, h => Bool.noConfusion h

/-- The key of the question the categorical engine renders for `category` in
state `s`, if the render path is reached. -/
def currentQuestionKey (category : QuestionCategory) (s : CatSession) :
    Option String :=
  if h : (CategoricalQuestionnaire.mergedProgress category s).current_question <
      (CategoricalQuestionnaire._get_visible_questions category
        (CategoricalQuestionnaire.mergedProgress category s).data s).length then
    some ((CategoricalQuestionnaire._get_visible_questions category
        (CategoricalQuestionnaire.mergedProgress category s).data s).get
      ⟨(CategoricalQuestionnaire.mergedProgress category s).current_question,
        h⟩).key
  else Option.none

/-- The auto-save phase leaves (Python-)equal values stored at the rendered
question's key in both the local and the global map. -/
theorem autoSave_persists (category : QuestionCategory) (s : CatSession)
    (p : CategoryProgress) (qk : String) (rendered : Value)
    (hv : rendered ≠ Value.none)
    (hsync : ∀ w, dictGet p.data qk = some w →
      dictGet (CategoricalQuestionnaire._get_all_data s) qk = some w) :
    ∃ w, pyEq rendered w = true ∧
      dictGet (CategoricalQuestionnaire.autoSave category s p qk
        rendered).2.data qk = some w ∧
      dictGet (CategoricalQuestionnaire._get_all_data
        (CategoricalQuestionnaire.autoSave category s p qk rendered).1) qk =
        some w := by
  unfold CategoricalQuestionnaire.autoSave
  by_cases hcond : rendered ≠ Value.none ∧
      pyEq rendered ((dictGet p.data qk).getD Value.none) = false
  · rw [if_pos hcond]
    refine ⟨rendered, pyEq_refl rendered, ?_, ?_⟩
    · exact dictGet_dictSet_self qk rendered p.data
    · show dictGet (dictUpdate (CategoricalQuestionnaire._get_all_data s)
        [(qk, rendered)]) qk = some rendered
      exact dictGet_dictSet_self qk rendered _
  · rw [if_neg hcond]
    have hpe : pyEq rendered ((dictGet p.data qk).getD Value.none) = true := by
      rcases Bool.eq_false_or_eq_true
        (pyEq rendered ((dictGet p.data qk).getD Value.none)) with ht | hf
      · exact ht
      · exact absurd ⟨hv, hf⟩ hcond
    cases hget : dictGet p.data qk with
    | none =>
      rw [hget] at hpe
      exact absurd (pyEq_none_right rendered hpe) hv
    | some w =>
      rw [hget] at hpe
      exact ⟨w, hpe, rfl, by
        show dictGet (CategoricalQuestionnaire._get_all_data s) qk = some w
        exact hsync w hget⟩

/-- The navigation phase never touches the global answer map. -/
theorem clickPhase_global (category : QuestionCategory) (s : CatSession)
    (p : CategoryProgress) (V : List CatQuestion) (idx : Nat)
    (click : CatClick) :
    CategoricalQuestionnaire._get_all_data
        (CategoricalQuestionnaire.clickPhase category s p V idx click).1 =
      CategoricalQuestionnaire._get_all_data s := by
  cases click with
  | none => rfl
  | prev =>
    by_cases h : 0 < idx <;>
      simp [CategoricalQuestionnaire.clickPhase, h,
        CategoricalQuestionnaire._get_all_data,
        CategoricalQuestionnaire._update_progress]
  | next => rfl
  | skip => rfl

/-- The "Volgende vraag" click stores a progress entry carrying the same
local data. -/
theorem clickPhase_next_entry (category : QuestionCategory) (s : CatSession)
    (p : CategoryProgress) (V : List CatQuestion) (idx : Nat) :
    ∃ p', dictGet (CategoricalQuestionnaire._get_progress
        (CategoricalQuestionnaire.clickPhase category s p V idx
          CatClick.next).1) category.name = some p' ∧ p'.data = p.data := by
  have hred : CategoricalQuestionnaire.clickPhase category s p V idx
      CatClick.next =
      (CategoricalQuestionnaire._update_progress s category.name
        (if V.length ≤ idx + 1 then
          ⟨p.category_name, idx + 1, true, p.data⟩
        else ⟨p.category_name, idx + 1, p.completed, p.data⟩),
       Option.none) := by
    unfold CategoricalQuestionnaire.clickPhase
    by_cases h : V.length ≤ idx + 1 <;> simp [h]
  rw [hred]
  refine ⟨if V.length ≤ idx + 1 then ⟨p.category_name, idx + 1, true, p.data⟩
    else ⟨p.category_name, idx + 1, p.completed, p.data⟩, ?_, ?_⟩
  · exact dictGet_dictSet_self category.name _
      (CategoricalQuestionnaire._get_progress s)
  · split <;> rfl

/-- C5: when the categorical engine renders the current visible question, a
value (Python-)equal to the one the render returns is, already before any
navigation click, stored under the question's key in both the category's
local data and the engine's global answer map (no separate save action); the
navigation click adds no further global write, and a "Volgende vraag" click
persists a progress entry still carrying that local value.  Hypotheses: the
render returns a non-`None` value (every question type in the repository
does), and the engine's write-through invariant — a locally stored value for
the key also sits in the global map — holds for the rendered key. -/
theorem categorical_auto_persist (category : QuestionCategory)
    (s : CatSession) (rendered : Value) (click : CatClick) (qk : String)
    (hq : currentQuestionKey category s = some qk)
    (hv : rendered ≠ Value.none)
    (hsync : ∀ w,
      dictGet (CategoricalQuestionnaire.mergedProgress category s).data qk =
        some w →
      dictGet (CategoricalQuestionnaire._get_all_data s) qk = some w) :
    ∃ w, pyEq rendered w = true ∧
      dictGet (CategoricalQuestionnaire.autoSave category s
        (CategoricalQuestionnaire.mergedProgress category s) qk
        rendered).2.data qk = some w ∧
      dictGet (CategoricalQuestionnaire._get_all_data
        (CategoricalQuestionnaire.autoSave category s
          (CategoricalQuestionnaire.mergedProgress category s) qk
          rendered).1) qk = some w ∧
      CategoricalQuestionnaire._get_all_data
          (CategoricalQuestionnaire._run_category category s rendered
            click).1 =
        CategoricalQuestionnaire._get_all_data
          (CategoricalQuestionnaire.autoSave category s
            (CategoricalQuestionnaire.mergedProgress category s) qk
            rendered).1 ∧
      (click = CatClick.next →
        ∃ p', dictGet (CategoricalQuestionnaire._get_progress
            (CategoricalQuestionnaire._run_category category s rendered
              click).1) category.name = some p' ∧
          dictGet p'.data qk = some w) := by
  unfold currentQuestionKey at hq
  split at hq
  case isFalse => exact absurd hq (by simp)
  case isTrue hlt =>
  have hkey := Option.some.inj hq
  have hVne : CategoricalQuestionnaire._get_visible_questions category
      (CategoricalQuestionnaire.mergedProgress category s).data s ≠ [] := by
    intro h0
    rw [h0] at hlt
    simp at hlt
  have hnle : ¬ ((CategoricalQuestionnaire._get_visible_questions category
      (CategoricalQuestionnaire.mergedProgress category s).data s).length ≤
      (CategoricalQuestionnaire.mergedProgress category s).current_question) :=
    Nat.not_le.2 hlt
  have hrun : CategoricalQuestionnaire._run_category category s rendered
      click =
      CategoricalQuestionnaire.clickPhase category
        (CategoricalQuestionnaire.autoSave category s
          (CategoricalQuestionnaire.mergedProgress category s) qk rendered).1
        (CategoricalQuestionnaire.autoSave category s
          (CategoricalQuestionnaire.mergedProgress category s) qk rendered).2
        (CategoricalQuestionnaire._get_visible_questions category
          (CategoricalQuestionnaire.mergedProgress category s).data s)
        (CategoricalQuestionnaire.mergedProgress category s).current_question
        click := by
    unfold CategoricalQuestionnaire._run_category
    simp only [if_neg hVne, dif_neg hnle]
    rw [← hkey]
  obtain ⟨w, hw1, hw2, hw3⟩ :=
    autoSave_persists category s
      (CategoricalQuestionnaire.mergedProgress category s) qk rendered hv hsync
  refine ⟨w, hw1, hw2, hw3, ?_, ?_⟩
  · rw [hrun, clickPhase_global]
  · intro hclick
    subst hclick
    rw [hrun]
    obtain ⟨p', hp', hdata⟩ := clickPhase_next_entry category
      (CategoricalQuestionnaire.autoSave category s
        (CategoricalQuestionnaire.mergedProgress category s) qk rendered).1
      (CategoricalQuestionnaire.autoSave category s
        (CategoricalQuestionnaire.mergedProgress category s) qk rendered).2
      (CategoricalQuestionnaire._get_visible_questions category
        (CategoricalQuestionnaire.mergedProgress category s).data s)
      (CategoricalQuestionnaire.mergedProgress category s).current_question
    exact ⟨p', hp', by rw [hdata]; exact hw2⟩

/-- Witness for C5: first render of a one-question category with value 42. -/
theorem categorical_auto_persist_witness :
    (let category : QuestionCategory :=
      ⟨"Inkomen", "Inkomsten", "💰", [.base "netto_inkomen"]⟩
     let s := CategoricalQuestionnaire._initialize_session_state [category]
       (CategoricalQuestionnaire.reset
         ⟨Option.none, Option.none, Option.none, false, false⟩)
     ∃ w, pyEq (Value.int 42) w = true ∧
      dictGet (CategoricalQuestionnaire.autoSave category s
        (CategoricalQuestionnaire.mergedProgress category s) "netto_inkomen"
        (.int 42)).2.data "netto_inkomen" = some w ∧
      dictGet (CategoricalQuestionnaire._get_all_data
        (CategoricalQuestionnaire.autoSave category s
          (CategoricalQuestionnaire.mergedProgress category s) "netto_inkomen"
          (.int 42)).1) "netto_inkomen" = some w ∧
      CategoricalQuestionnaire._get_all_data
          (CategoricalQuestionnaire._run_category category s (.int 42)
            CatClick.next).1 =
        CategoricalQuestionnaire._get_all_data
          (CategoricalQuestionnaire.autoSave category s
            (CategoricalQuestionnaire.mergedProgress category s)
            "netto_inkomen" (.int 42)).1 ∧
      (CatClick.next = CatClick.next →
        ∃ p', dictGet (CategoricalQuestionnaire._get_progress
            (CategoricalQuestionnaire._run_category category s (.int 42)
              CatClick.next).1) category.name = some p' ∧
          dictGet p'.data "netto_inkomen" = some w)) :=
  categorical_auto_persist
    ⟨"Inkomen", "Inkomsten", "💰", [.base "netto_inkomen"]⟩
    (CategoricalQuestionnaire._initialize_session_state
      [⟨"Inkomen", "Inkomsten", "💰", [.base "netto_inkomen"]⟩]
      (CategoricalQuestionnaire.reset
        ⟨Option.none, Option.none, Option.none, false, false⟩))
    (.int 42) CatClick.next "netto_inkomen" (by decide) (by decide)
    (by decide)

/-- Dict assignment only ever produces the old pairs or the assigned pair. -/
theorem mem_dictSet {α : Type} (k : String) (v : α) :
    ∀ (d : List (String × α)) (e : String × α),
      e ∈ dictSet d k v → e ∈ d ∨ e = (k, v)
  | [], e, he => by
    simp only [dictSet, List.mem_singleton] at he
    exact Or.inr he
  | (k', v') :: rest, e, he => by
    unfold dictSet at he
    split at he
    next hk =>
      rcases List.mem_cons.1 he with h | h
      · subst hk
        exact Or.inr h
      · exact Or.inl (List.mem_cons_of_mem _ h)
    next hk =>
      rcases List.mem_cons.1 he with h | h
      · exact Or.inl (by simp [h])
      · rcases mem_dictSet k v rest e h with h2 | h2
        · exact Or.inl (by simp [h2])
        · exact Or.inr h2

/-- Dict assignment never empties a dict. -/
theorem dictSet_ne_nil {α : Type} (d : List (String × α)) (k : String)
    (v : α) : dictSet d k v ≠ [] := by
  cases d with
  | nil => simp [dictSet]
  | cons p rest =>
    unfold dictSet
    split <;> simp

/-- Every entry of the freshly built progress map is an unstarted
`CategoryProgress`. -/
theorem mem_freshProgress :
    ∀ (cats : List QuestionCategory)
      (m : List (String × CategoryProgress)),
      (∀ e ∈ m, e.2.completed = false ∧ e.2.current_question = 0 ∧
        e.2.data = []) →
      ∀ e ∈ cats.foldl
        (fun m c => dictSet m c.name { category_name := c.name }) m,
        e.2.completed = false ∧ e.2.current_question = 0 ∧ e.2.data = []
  | [], _, hm => hm
  | c :: cats, m, hm => by
    apply mem_freshProgress cats
    intro e he
    rcases mem_dictSet c.name { category_name := c.name } m e he with h | h
    · exact hm e h
    · rw [h]
      exact ⟨rfl, rfl, rfl⟩

/-- The freshly built progress map is nonempty if the accumulator is. -/
theorem foldl_dictSet_ne_nil :
    ∀ (cats : List QuestionCategory)
      (m : List (String × CategoryProgress)), m ≠ [] →
      cats.foldl (fun m c => dictSet m c.name { category_name := c.name })
        m ≠ []
  | [], _, hm => hm
  | c :: cats, m, _ =>
    foldl_dictSet_ne_nil cats _ (dictSet_ne_nil m c.name _)

/-- C6 counterexample: immediately after `reset()` of the categorical engine
— before any re-initialization — `is_complete()` returns `True` (the
progress slot was deleted, so `all()` ranges over an empty dict), not
`False` as the claim states. -/
theorem categorical_reset_is_complete_counterexample :
    CategoricalQuestionnaire.is_complete
      (CategoricalQuestionnaire.reset
        (CategoricalQuestionnaire._initialize_session_state
          [⟨"Inkomen", "Inkomsten", "💰", [.base "netto_inkomen"]⟩]
          ⟨Option.none, Option.none, Option.none, false, false⟩)) = true := by
  rfl

/-- C6 (amended): after `reset()` the sequential engine's `is_complete()` is
false provided the questionnaire has at least one question, and its next
`run()` re-initializes to step 0 with an empty answer map; the categorical
engine's `is_complete()` is vacuously true on the freshly reset
(uninitialized) state, and only after the next `run()`'s re-initialization is
it false (given at least one category), positioned at the first category with
a fresh progress map and no residual stored answers. -/
theorem engines_reset_amended (qs : List SeqQuestion) (s : SeqSession)
    (cats : List QuestionCategory) (cs : CatSession)
    (hq : qs ≠ []) (hc : cats ≠ []) :
    Questionnaire.is_complete qs (Questionnaire.reset s) = false ∧
    Questionnaire._initialize_session_state (Questionnaire.reset s) =
      ⟨some 0, some []⟩ ∧
    CategoricalQuestionnaire.is_complete
      (CategoricalQuestionnaire.reset cs) = true ∧
    CategoricalQuestionnaire.is_complete
      (CategoricalQuestionnaire._initialize_session_state cats
        (CategoricalQuestionnaire.reset cs)) = false ∧
    CategoricalQuestionnaire._get_current_category_index
      (CategoricalQuestionnaire._initialize_session_state cats
        (CategoricalQuestionnaire.reset cs)) = 0 ∧
    CategoricalQuestionnaire._get_all_data
      (CategoricalQuestionnaire._initialize_session_state cats
        (CategoricalQuestionnaire.reset cs)) = [] ∧
    ∀ e ∈ CategoricalQuestionnaire._get_progress
        (CategoricalQuestionnaire._initialize_session_state cats
          (CategoricalQuestionnaire.reset cs)),
      e.2.completed = false ∧ e.2.current_question = 0 ∧ e.2.data = [] := by
  have h0 : 0 < qs.length := List.length_pos.mpr hq
  have hfresh : ∀ e ∈ CategoricalQuestionnaire._get_progress
      (CategoricalQuestionnaire._initialize_session_state cats
        (CategoricalQuestionnaire.reset cs)),
      e.2.completed = false ∧ e.2.current_question = 0 ∧ e.2.data = [] := by
    intro e he
    exact mem_freshProgress cats [] (by simp) e he
  refine ⟨?_, rfl, rfl, ?_, rfl, rfl, hfresh⟩
  · have hnle : ¬ (qs.length ≤ Questionnaire._get_current_step
        (Questionnaire.reset s)) := by
      show ¬ (qs.length ≤ (Option.none.getD 0))
      simp only [Option.getD_none]
      omega
    simpa [Questionnaire.is_complete] using hnle
  · obtain ⟨c, rest, rfl⟩ := List.exists_cons_of_ne_nil hc
    have hne : CategoricalQuestionnaire._get_progress
        (CategoricalQuestionnaire._initialize_session_state (c :: rest)
          (CategoricalQuestionnaire.reset cs)) ≠ [] := by
      show (c :: rest).foldl
        (fun m c => dictSet m c.name
          ({ category_name := c.name } : CategoryProgress)) [] ≠ []
      exact foldl_dictSet_ne_nil rest _ (dictSet_ne_nil [] c.name _)
    obtain ⟨e, he⟩ := List.exists_mem_of_ne_nil _ hne
    have := (hfresh e he).1
    unfold CategoricalQuestionnaire.is_complete
    rw [List.all_eq_false]
    exact ⟨e, he, by simp [this]⟩

/-- Witness for the amended C6 at a one-question, one-category instance. -/
theorem engines_reset_amended_witness :
    Questionnaire.is_complete [⟨"a"⟩]
      (Questionnaire.reset ⟨some 1, some [("a", .int 3)]⟩) = false ∧
    Questionnaire._initialize_session_state
      (Questionnaire.reset ⟨some 1, some [("a", .int 3)]⟩) =
      ⟨some 0, some []⟩ ∧
    CategoricalQuestionnaire.is_complete
      (CategoricalQuestionnaire.reset
        ⟨some 0, Option.none, some [("q", .int 7)], true, false⟩) = true ∧
    CategoricalQuestionnaire.is_complete
      (CategoricalQuestionnaire._initialize_session_state
        [⟨"Inkomen", "Inkomsten", "💰", [.base "q"]⟩]
        (CategoricalQuestionnaire.reset
          ⟨some 0, Option.none, some [("q", .int 7)], true, false⟩)) =
      false ∧
    CategoricalQuestionnaire._get_current_category_index
      (CategoricalQuestionnaire._initialize_session_state
        [⟨"Inkomen", "Inkomsten", "💰", [.base "q"]⟩]
        (CategoricalQuestionnaire.reset
          ⟨some 0, Option.none, some [("q", .int 7)], true, false⟩)) = 0 ∧
    CategoricalQuestionnaire._get_all_data
      (CategoricalQuestionnaire._initialize_session_state
        [⟨"Inkomen", "Inkomsten", "💰", [.base "q"]⟩]
        (CategoricalQuestionnaire.reset
          ⟨some 0, Option.none, some [("q", .int 7)], true, false⟩)) = [] ∧
    ∀ e ∈ CategoricalQuestionnaire._get_progress
        (CategoricalQuestionnaire._initialize_session_state
          [⟨"Inkomen", "Inkomsten", "💰", [.base "q"]⟩]
          (CategoricalQuestionnaire.reset
            ⟨some 0, Option.none, some [("q", .int 7)], true, false⟩)),
      e.2.completed = false ∧ e.2.current_question = 0 ∧ e.2.data = [] :=
  engines_reset_amended [⟨"a"⟩] ⟨some 1, some [("a", .int 3)]⟩
    [⟨"Inkomen", "Inkomsten", "💰", [.base "q"]⟩]
    ⟨some 0, Option.none, some [("q", .int 7)], true, false⟩
    (by decide) (by decide)

/-!  ## Compound interest (`src/calculators/compound_interest.py`)

Floating-point arithmetic is modelled by exact rationals; `time_years` is the
non-negative integer the widget enforces (`min_value=0`). -/

/-- `InvestmentParameters` from `compound_interest.py`. -/
structure InvestmentParameters where
  principal : ℚ
  interest_rate : ℚ
  monthly_contribution : ℚ
  goal_amount : ℚ
  time_years : ℕ
  compounds_per_year : ℕ
deriving Repr, DecidableEq

/-- The month loop of `calculate_investment_growth`: collect the balance for
each of `months + 1` iterations, applying
`current = (current + contribution) * (1 + monthly_rate)` and
`total += contribution` on all but the last; returns (values, total). -/
def growthLoop (contribution monthly_rate : ℚ) :
    ℕ → ℚ → ℚ → List ℚ × ℚ
  | 0, current, total => ([current], total)
  | n + 1, current, total =>
    let r := growthLoop contribution monthly_rate n
      ((current + contribution) * (1 + monthly_rate)) (total + contribution)
    (current :: r.1, r.2)

/-- `calculate_investment_growth` (compound_interest.py lines 72-116):
month-by-month balances, total contributions, interest earned. -/
def calculate_investment_growth (params : InvestmentParameters) :
    List ℚ × ℚ × ℚ :=
  let rate := params.interest_rate / 100
  let monthly_rate := rate / 12
  let months := params.time_years * 12
  let vt := growthLoop params.monthly_contribution monthly_rate months
    params.principal params.principal
  let values := vt.1
  let total_contributions := vt.2
  let final_amount := values.getLastD 0
  (values, total_contributions, final_amount - total_contributions)

/-- The growth loop produces `n + 1` balances. -/
theorem growthLoop_length (c mr : ℚ) :
    ∀ (n : ℕ) (cur tot : ℚ), (growthLoop c mr n cur tot).1.length = n + 1
  | 0, _, _ => rfl
  | n + 1, cur, tot => by
    simp [growthLoop, growthLoop_length c mr n]

/-- The first balance is the starting amount. -/
theorem growthLoop_head (c mr : ℚ) :
    ∀ (n : ℕ) (cur tot : ℚ), (growthLoop c mr n cur tot).1.getD 0 0 = cur
  | 0, _, _ => rfl
  | _ + 1, _, _ => rfl

/-- The accumulated contribution total after `n` months. -/
theorem growthLoop_total (c mr : ℚ) :
    ∀ (n : ℕ) (cur tot : ℚ), (growthLoop c mr n cur tot).2 = tot + n * c
  | 0, _, _ => by simp [growthLoop]
  | n + 1, cur, tot => by
    rw [show (growthLoop c mr (n + 1) cur tot).2 =
      (growthLoop c mr n ((cur + c) * (1 + mr)) (tot + c)).2 from rfl]
    rw [growthLoop_total c mr n]
    push_cast
    ring

/-- Each balance satisfies the compounding recurrence. -/
theorem growthLoop_step (c mr : ℚ) :
    ∀ (n : ℕ) (cur tot : ℚ) (k : ℕ), k < n →
      (growthLoop c mr n cur tot).1.getD (k + 1) 0 =
        ((growthLoop c mr n cur tot).1.getD k 0 + c) * (1 + mr)
  | 0, _, _, _, hk => absurd hk (Nat.not_lt_zero _)
  | n + 1, cur, tot, 0, _ => by
    show (growthLoop c mr n ((cur + c) * (1 + mr)) (tot + c)).1.getD 0 0 =
      (cur + c) * (1 + mr)
    exact growthLoop_head c mr n _ _
  | n + 1, cur, tot, k + 1, hk => by
    show (growthLoop c mr n ((cur + c) * (1 + mr)) (tot + c)).1.getD (k + 1) 0 =
      ((growthLoop c mr n ((cur + c) * (1 + mr)) (tot + c)).1.getD k 0 + c) *
        (1 + mr)
    exact growthLoop_step c mr n _ _ k (Nat.lt_of_succ_lt_succ hk)

/-- The last balance is the one at index `n` (whatever the default). -/
theorem growthLoop_last (c mr : ℚ) :
    ∀ (n : ℕ) (cur tot d : ℚ),
      (growthLoop c mr n cur tot).1.getLastD d =
        (growthLoop c mr n cur tot).1.getD n 0
  | 0, _, _, _ => rfl
  | n + 1, cur, tot, d => by
    show (cur :: (growthLoop c mr n ((cur + c) * (1 + mr)) (tot + c)).1
      ).getLastD d = _
    rw [List.getLastD_cons]
    show (growthLoop c mr n ((cur + c) * (1 + mr)) (tot + c)).1.getLastD cur =
      (growthLoop c mr n ((cur + c) * (1 + mr)) (tot + c)).1.getD n 0
    exact growthLoop_last c mr n _ _ cur

/-- C8: `calculate_investment_growth` returns exactly `m + 1` values for the
horizon `m = 12 * time_years`, with `values[0]` the principal, the monthly
recurrence `values[k+1] = (values[k] + c) * (1 + r/100/12)`, total
contributions `principal + m * c`, and interest earned
`values[m] - total`; at principal 1000, rate 7, contribution 100 and one
year it returns 13 values starting at 1000 with total contributions 2200. -/
theorem calculate_investment_growth_spec (params : InvestmentParameters) :
    ((calculate_investment_growth params).1.length =
      params.time_years * 12 + 1) ∧
    (calculate_investment_growth params).1.getD 0 0 = params.principal ∧
    (∀ k, k < params.time_years * 12 →
      (calculate_investment_growth params).1.getD (k + 1) 0 =
        ((calculate_investment_growth params).1.getD k 0 +
            params.monthly_contribution) *
          (1 + params.interest_rate / 100 / 12)) ∧
    (calculate_investment_growth params).2.1 =
      params.principal + (params.time_years * 12 : ℕ) *
        params.monthly_contribution ∧
    (calculate_investment_growth params).2.2 =
      (calculate_investment_growth params).1.getD (params.time_years * 12) 0 -
        (calculate_investment_growth params).2.1 ∧
    (calculate_investment_growth ⟨1000, 7, 100, 0, 1, 1⟩).1.length = 13 ∧
    (calculate_investment_growth ⟨1000, 7, 100, 0, 1, 1⟩).1.getD 0 0 = 1000 ∧
    (calculate_investment_growth ⟨1000, 7, 100, 0, 1, 1⟩).2.1 =
      1000 + 12 * 100 := by
  refine ⟨growthLoop_length _ _ _ _ _, growthLoop_head _ _ _ _ _, ?_, ?_, ?_,
    growthLoop_length _ _ _ _ _, growthLoop_head _ _ _ _ _, ?_⟩
  · intro k hk
    exact growthLoop_step _ _ _ _ _ k hk
  · exact growthLoop_total _ _ _ _ _
  · show (calculate_investment_growth params).1.getLastD 0 -
      (calculate_investment_growth params).2.1 = _
    rw [show (calculate_investment_growth params).1 =
      (growthLoop params.monthly_contribution
        (params.interest_rate / 100 / 12) (params.time_years * 12)
        params.principal params.principal).1 from rfl]
    rw [growthLoop_last]
  · rw [show (calculate_investment_growth ⟨1000, 7, 100, 0, 1, 1⟩).2.1 =
      (growthLoop 100 (7 / 100 / 12) 12 1000 1000).2 from rfl,
      growthLoop_total]
    norm_num

/-- Witness for C8 at the claim's concrete parameters. -/
theorem calculate_investment_growth_spec_witness :
    (0 : ℕ) < 12 ∧
    (calculate_investment_growth ⟨1000, 7, 100, 0, 1, 1⟩).1.getD 1 0 =
      ((calculate_investment_growth ⟨1000, 7, 100, 0, 1, 1⟩).1.getD 0 0 +
          100) * (1 + 7 / 100 / 12) :=
  ⟨by decide,
   (calculate_investment_growth_spec ⟨1000, 7, 100, 0, 1, 1⟩).2.2.1 0
     (by decide)⟩

/-!  ## Debt payoff (`src/calculators/debt_payoff.py`)

Floats are modelled by exact rationals; the `while` loop increments `months`
every iteration and breaks once `months > 360`, so it runs at most 361
iterations — it is embedded as structural recursion on a fuel of exactly 361,
whose zero case is unreachable from the entry point. -/

/-- `Debt` from `debt_payoff.py`. -/
structure Debt where
  name : String
  balance : ℚ
  interest_rate : ℚ
  min_payment : ℚ
deriving Repr, DecidableEq

/-- `DebtPayoffParameters` from `debt_payoff.py`. -/
structure DebtPayoffParameters where
  debts : List Debt
  extra_payment : ℚ
deriving Repr, DecidableEq

/-- `balances[-1]`: the last recorded balance of one debt's history. -/
def lastBalance (h : List ℚ) : ℚ :=
  h.getLastD 0

/-- The first half of a simulated month: minimum payments on all debts with a
positive balance, threading `(available_payment, new_balances, paid)`.
(The `available_payment` update is the source's dead guard: `payment` never
exceeds `min_payment`, so the subtraction is always of zero.) -/
def minimumPayments (ordered_debts : List Debt)
    (monthly_balances : List (String × List ℚ)) (extra_payment : ℚ) :
    ℚ × List (String × ℚ) × ℚ :=
  ordered_debts.foldl
    (fun acc debt =>
      let current_balance :=
        lastBalance ((dictGet monthly_balances debt.name).getD [])
      if current_balance > 0 then
        let interest := current_balance * (debt.interest_rate / 100 / 12)
        let payment := min (current_balance + interest) debt.min_payment
        let new_balance := current_balance + interest - payment
        (max 0 (acc.1 - max 0 (payment - debt.min_payment)),
         dictSet acc.2.1 debt.name new_balance,
         acc.2.2 + payment)
      else
        (acc.1, dictSet acc.2.1 debt.name 0, acc.2.2))
    (extra_payment, [], 0)

/-- The second half of a simulated month: the whole leftover budget goes to
the first debt (in the chosen order) that still has a balance; returns the
updated balances and the payment made. -/
def applyExtra (available_payment : ℚ) :
    List Debt → List (String × ℚ) → List (String × ℚ) × ℚ
  | [], new_balances => (new_balances, 0)
  | debt :: rest, new_balances =>
    let nb := (dictGet new_balances debt.name).getD 0
    if nb > 0 ∧ available_payment > 0 then
      let payment := min nb available_payment
      (dictSet new_balances debt.name (nb - payment), payment)
    else applyExtra available_payment rest new_balances

/-- Append each debt's new balance to its history. -/
def appendBalances (monthly_balances : List (String × List ℚ))
    (new_balances : List (String × ℚ)) : List (String × List ℚ) :=
  new_balances.foldl
    (fun m kv => dictSet m kv.1 (((dictGet m kv.1).getD []) ++ [kv.2]))
    monthly_balances

/-- The `while any(balances[-1] > 0 ...)` loop of `calculate_payoff`:
simulate a month, append the balances, bump `months` and break once it
exceeds 360. -/
def payoffLoop (extra_payment : ℚ) (ordered_debts : List Debt) :
    ℕ → List (String × List ℚ) → ℚ → ℕ →
    List (String × List ℚ) × ℚ × ℕ
  | 0, mb, total, months => (mb, total, months)
  | fuel + 1, mb, total, months =>
    if mb.any (fun e => lastBalance e.2 > 0) then
      let p1 := minimumPayments ordered_debts mb extra_payment
      let p2 := applyExtra p1.1 ordered_debts p1.2.1
      let mb' := appendBalances mb p2.1
      let total' := total + p1.2.2 + p2.2
      let months' := months + 1
      if months' > 360 then (mb', total', months')
      else payoffLoop extra_payment ordered_debts fuel mb' total' months'
    else (mb, total, months)

/-- `calculate_payoff` (debt_payoff.py lines 100-146). -/
def calculate_payoff (params : DebtPayoffParameters)
    (ordered_debts : List Debt) : List (String × List ℚ) × ℚ × ℕ :=
  let monthly_balances :=
    ordered_debts.foldl (fun m d => dictSet m d.name [d.balance]) []
  payoffLoop params.extra_payment ordered_debts 361 monthly_balances 0 0

/-- Python's stable `sorted`: insertion sort placing each element after
exactly the earlier elements it must go after. -/
def insortBy {α : Type} (goes_after : α → α → Bool) (x : α) :
    List α → List α
  | [] => [x]
  | y :: ys =>
    if goes_after x y then y :: insortBy goes_after x ys else x :: y :: ys

/-- Stable sort of a list by the `goes_after` relation. -/
def sortedBy {α : Type} (goes_after : α → α → Bool) : List α → List α
  | [] => []
  | x :: xs => insortBy goes_after x (sortedBy goes_after xs)

/-- `sorted(params.debts, key=lambda x: x.balance)`: stable ascending sort by
balance (an earlier debt goes after a later one only when the later one has a
strictly smaller balance — Python's `sorted` is guaranteed stable). -/
def snowballOrder (debts : List Debt) : List Debt :=
  sortedBy (fun x y => decide (y.balance < x.balance)) debts

/-- `sorted(params.debts, key=lambda x: x.interest_rate, reverse=True)`:
stable descending sort by interest rate (`reverse=True` keeps equal keys in
input order). -/
def avalancheOrder (debts : List Debt) : List Debt :=
  sortedBy (fun x y => decide (x.interest_rate < y.interest_rate)) debts

/-- `calculate_snowball_payoff` (debt_payoff.py lines 84-89). -/
def calculate_snowball_payoff (params : DebtPayoffParameters) :
    List (String × List ℚ) × ℚ × ℕ :=
  calculate_payoff params (snowballOrder params.debts)

/-- `calculate_avalanche_payoff` (debt_payoff.py lines 92-97). -/
def calculate_avalanche_payoff (params : DebtPayoffParameters) :
    List (String × List ℚ) × ℚ × ℕ :=
  calculate_payoff params (avalancheOrder params.debts)

/-- The returned month counter never exceeds 361. -/
theorem payoffLoop_months_le (extra : ℚ) (ordered : List Debt) :
    ∀ (fuel : ℕ) (mb : List (String × List ℚ)) (total : ℚ) (months : ℕ),
      months + fuel ≤ 361 →
      (payoffLoop extra ordered fuel mb total months).2.2 ≤ 361
  | 0, _, _, _, h => by simpa [payoffLoop] using h
  | fuel + 1, mb, total, months, h => by
    unfold payoffLoop
    split
    · dsimp only
      split
      · dsimp only
        omega
      · exact payoffLoop_months_le extra ordered fuel _ _ _ (by omega)
    · dsimp only
      omega

/-- One simulated month for a single interest-free debt with no extra
budget: pay `min cur p`, append the new balance, bump the month counter
(breaking past 360). -/
theorem payoffLoop_step_single (nm : String) (b0 p : ℚ) (h : List ℚ)
    (cur total : ℚ) (months fuel : ℕ)
    (hlast : h.getLastD 0 = cur) (hpos : 0 < cur) :
    payoffLoop 0 [⟨nm, b0, 0, p⟩] (fuel + 1) [(nm, h)] total months =
      if months + 1 > 360 then
        ([(nm, h ++ [cur - min cur p])], total + min cur p, months + 1)
      else
        payoffLoop 0 [⟨nm, b0, 0, p⟩] fuel [(nm, h ++ [cur - min cur p])]
          (total + min cur p) (months + 1) := by
  have hlast' : h.getLast?.getD 0 = cur := by
    rw [← List.getLastD_eq_getLast?]
    exact hlast
  have hcond : ([(nm, h)].any fun e => decide (lastBalance e.2 > 0)) = true := by
    simp [lastBalance, hlast', hpos]
  have hcur : cur + cur * ((0:ℚ) / 100 / 12) = cur := by norm_num
  have hp1 : minimumPayments [⟨nm, b0, 0, p⟩] [(nm, h)] 0 =
      (0, [(nm, cur - min cur p)], min cur p) := by
    have hav : max (0:ℚ) (0 - max 0 (min cur p - p)) = 0 := by
      have hle : min cur p ≤ p := min_le_right _ _
      have h1 : max (0:ℚ) (min cur p - p) = 0 := max_eq_left (by linarith)
      rw [h1]
      norm_num
    unfold minimumPayments
    simp [dictGet, dictSet, lastBalance, hlast', hpos, hcur, hav]
  have hp2 : applyExtra 0 [⟨nm, b0, 0, p⟩] [(nm, cur - min cur p)] =
      ([(nm, cur - min cur p)], 0) := by
    unfold applyExtra
    rw [if_neg (by simp)]
    rfl
  have happ : appendBalances [(nm, h)] [(nm, cur - min cur p)] =
      [(nm, h ++ [cur - min cur p])] := by
    simp [appendBalances, dictGet, dictSet]
  show (if ([(nm, h)].any fun e => decide (lastBalance e.2 > 0)) = true then _
    else _) = _
  rw [if_pos hcond]
  dsimp only
  rw [hp1, hp2, happ]
  dsimp only
  rw [add_zero]

/-- A single 0%-interest debt of balance `100 * m` with minimum payment 100
and no extra budget resolves in exactly `m` further months, paying
`100 * m`. -/
theorem payoff_single_100 (nm : String) (b0 : ℚ) :
    ∀ (m fuel months : ℕ) (h : List ℚ) (total : ℚ),
      m ≤ fuel → months + m ≤ 360 → h.getLastD 0 = 100 * m →
      (payoffLoop 0 [⟨nm, b0, 0, 100⟩] fuel [(nm, h)] total months).2.1 =
        total + 100 * m ∧
      (payoffLoop 0 [⟨nm, b0, 0, 100⟩] fuel [(nm, h)] total months).2.2 =
        months + m
  | 0, fuel, months, h, total, _, _, hlast => by
    have hc : ([(nm, h)].any fun e => decide (lastBalance e.2 > 0)) = false := by
      simp only [Nat.cast_zero, mul_zero] at hlast
      have hlast' : h.getLast?.getD 0 = 0 := by
        rw [← List.getLastD_eq_getLast?]
        exact hlast
      simp [lastBalance, hlast']
    cases fuel with
    | zero => simp [payoffLoop]
    | succ fuel => simp [payoffLoop, hc]
  | m + 1, fuel, months, h, total, hmf, hm360, hlast => by
    obtain ⟨fuel', rfl⟩ : ∃ f', fuel = f' + 1 := ⟨fuel - 1, by omega⟩
    have hpos : (0:ℚ) < 100 * ((m : ℕ) + 1 : ℕ) := by positivity
    rw [payoffLoop_step_single nm b0 100 h (100 * ((m + 1 : ℕ) : ℚ)) total
      months fuel' (by rw [hlast]) (by push_cast; push_cast at hpos; linarith)]
    rw [if_neg (by omega : ¬ months + 1 > 360)]
    have hmin : min (100 * (((m + 1 : ℕ) : ℚ))) 100 = 100 :=
      min_eq_right (by
        push_cast
        nlinarith [Nat.cast_nonneg (α := ℚ) m])
    have hbal : 100 * (((m + 1 : ℕ) : ℚ)) - min (100 * (((m + 1 : ℕ) : ℚ)))
        100 = 100 * m := by
      rw [hmin]
      push_cast
      ring
    have ih := payoff_single_100 nm b0 m fuel' (months + 1)
      (h ++ [100 * (((m + 1 : ℕ) : ℚ)) - min (100 * (((m + 1 : ℕ) : ℚ))) 100])
      (total + min (100 * (((m + 1 : ℕ) : ℚ))) 100)
      (by omega) (by omega)
      (by rw [List.getLastD_concat, hbal])
    refine ⟨?_, ?_⟩
    · rw [ih.1, hmin]
      push_cast
      ring
    · rw [ih.2]
      omega

/-- A single positive 0%-interest debt with minimum payment 0 and no extra
budget never shrinks, so the loop only stops at the month cap, with the
month counter at 361. -/
theorem payoff_single_cap (nm : String) (b0 cur : ℚ) (hpos : 0 < cur) :
    ∀ (fuel months : ℕ) (h : List ℚ) (total : ℚ),
      months + fuel = 361 → h.getLastD 0 = cur →
      (payoffLoop 0 [⟨nm, b0, 0, 0⟩] fuel [(nm, h)] total months).2.2 = 361
  | 0, months, _, _, hmf, _ => by
    simp only [payoffLoop]
    omega
  | fuel + 1, months, h, total, hmf, hlast => by
    rw [payoffLoop_step_single nm b0 0 h cur total months fuel hlast hpos]
    have hmin : min cur (0:ℚ) = 0 := min_eq_right (le_of_lt hpos)
    by_cases hbr : months + 1 > 360
    · rw [if_pos hbr]
      simp only
      omega
    · rw [if_neg hbr]
      exact payoff_single_cap nm b0 cur hpos fuel (months + 1)
        (h ++ [cur - min cur 0]) (total + min cur 0) (by omega)
        (by rw [List.getLastD_concat, hmin, sub_zero])

/-- C9 counterexample: a single debt of 400 with 0% interest, minimum
payment 0 and no extra budget never shrinks; the simulation stops only after
the month counter reaches 361 — the returned month count exceeds 360. -/
theorem calculate_payoff_months_361_counterexample :
    (calculate_snowball_payoff ⟨[⟨"schuld", 400, 0, 0⟩], 0⟩).2.2 = 361 :=
  payoff_single_cap "schuld" 400 400 (by norm_num) 361 0 [400] 0 rfl rfl

/-- C9 (amended): the debt payoff simulation terminates for every input,
stopping when all balances reach zero or at the month cap; because the cap
check `months > 360` runs after the increment, the returned month count can
reach — but never exceeds — 361.  The single debt 1200 at 0% interest with
minimum payment 100 and no extra payment resolves in exactly 12 months with
total paid 1200 under both the snowball and the avalanche ordering. -/
theorem calculate_payoff_cap_and_example (params : DebtPayoffParameters)
    (ordered : List Debt) :
    (calculate_payoff params ordered).2.2 ≤ 361 ∧
    (calculate_snowball_payoff ⟨[⟨"s", 1200, 0, 100⟩], 0⟩).2.1 = 1200 ∧
    (calculate_snowball_payoff ⟨[⟨"s", 1200, 0, 100⟩], 0⟩).2.2 = 12 ∧
    (calculate_avalanche_payoff ⟨[⟨"s", 1200, 0, 100⟩], 0⟩).2.1 = 1200 ∧
    (calculate_avalanche_payoff ⟨[⟨"s", 1200, 0, 100⟩], 0⟩).2.2 = 12 := by
  have h12 := payoff_single_100 "s" 1200 12 361 0 [1200] 0 (by omega)
    (by omega) (by norm_num)
  refine ⟨payoffLoop_months_le _ _ 361 _ _ 0 (by omega), ?_, ?_, ?_, ?_⟩
  · show (payoffLoop 0 [⟨"s", 1200, 0, 100⟩] 361 [("s", [1200])] 0 0).2.1 =
      1200
    rw [h12.1]
    norm_num
  · show (payoffLoop 0 [⟨"s", 1200, 0, 100⟩] 361 [("s", [1200])] 0 0).2.2 = 12
    rw [h12.2]
  · show (payoffLoop 0 [⟨"s", 1200, 0, 100⟩] 361 [("s", [1200])] 0 0).2.1 =
      1200
    rw [h12.1]
    norm_num
  · show (payoffLoop 0 [⟨"s", 1200, 0, 100⟩] 361 [("s", [1200])] 0 0).2.2 = 12
    rw [h12.2]

/-- Membership in an insertion. -/
theorem mem_insortBy {α : Type} (f : α → α → Bool) (x : α) :
    ∀ (l : List α) (z : α), z ∈ insortBy f x l ↔ z = x ∨ z ∈ l
  | [], z => by simp [insortBy]
  | y :: ys, z => by
    unfold insortBy
    split
    · simp only [List.mem_cons, mem_insortBy f x ys z]
      tauto
    · simp only [List.mem_cons]

/-- Insertion produces a permutation of consing. -/
theorem perm_insortBy {α : Type} (f : α → α → Bool) (x : α) :
    ∀ l : List α, (insortBy f x l).Perm (x :: l)
  | [] => List.Perm.refl _
  | y :: ys => by
    unfold insortBy
    split
    · exact ((perm_insortBy f x ys).cons y).trans (List.Perm.swap x y ys)
    · exact List.Perm.refl _

/-- The stable sort permutes its input. -/
theorem perm_sortedBy {α : Type} (f : α → α → Bool) :
    ∀ l : List α, (sortedBy f l).Perm l
  | [] => List.Perm.refl _
  | x :: xs =>
    (perm_insortBy f x (sortedBy f xs)).trans ((perm_sortedBy f xs).cons x)

/-- Insertion preserves pairwise ordering for any transitive order compatible
with `goes_after`. -/
theorem pairwise_insortBy {α : Type} (f : α → α → Bool) (le : α → α → Prop)
    (htrans : Transitive le)
    (h1 : ∀ a b, f a b = false → le a b)
    (h2 : ∀ a b, f a b = true → le b a) (x : α) :
    ∀ l : List α, l.Pairwise le → (insortBy f x l).Pairwise le
  | [], _ => by simp [insortBy]
  | y :: ys, hp => by
    unfold insortBy
    split
    next hf =>
      refine List.Pairwise.cons ?_
        (pairwise_insortBy f le htrans h1 h2 x ys (List.Pairwise.of_cons hp))
      intro z hz
      rcases (mem_insortBy f x ys z).1 hz with rfl | hz'
      · exact h2 _ _ hf
      · exact (List.pairwise_cons.1 hp).1 z hz'
    next hf =>
      have hxy : le x y := h1 x y (by revert hf; cases f x y <;> simp)
      refine List.Pairwise.cons ?_ hp
      intro z hz
      rcases List.mem_cons.1 hz with rfl | hz'
      · exact hxy
      · exact htrans hxy ((List.pairwise_cons.1 hp).1 z hz')

/-- The stable sort is pairwise-ordered. -/
theorem pairwise_sortedBy {α : Type} (f : α → α → Bool) (le : α → α → Prop)
    (htrans : Transitive le)
    (h1 : ∀ a b, f a b = false → le a b)
    (h2 : ∀ a b, f a b = true → le b a) :
    ∀ l : List α, (sortedBy f l).Pairwise le
  | [] => List.Pairwise.nil
  | x :: xs =>
    pairwise_insortBy f le htrans h1 h2 x _
      (pairwise_sortedBy f le htrans h1 h2 xs)

/-- Inserting an element that satisfies `p` and only goes after elements
violating `p` puts it in front of the `p`-filtered list. -/
theorem filter_insortBy_pos {α : Type} (f : α → α → Bool) (p : α → Bool)
    (x : α) (hx : p x = true)
    (hskip : ∀ y, f x y = true → p y = false) :
    ∀ l : List α, (insortBy f x l).filter p = x :: l.filter p
  | [] => by simp [insortBy, hx]
  | y :: ys => by
    unfold insortBy
    split
    next hf =>
      have hpy : p y = false := hskip y hf
      simp [List.filter_cons, hpy, filter_insortBy_pos f p x hx hskip ys]
    next hf =>
      simp [List.filter_cons, hx]

/-- Inserting an element violating `p` leaves the `p`-filtered list alone. -/
theorem filter_insortBy_neg {α : Type} (f : α → α → Bool) (p : α → Bool)
    (x : α) (hx : p x = false) :
    ∀ l : List α, (insortBy f x l).filter p = l.filter p
  | [] => by simp [insortBy, hx]
  | y :: ys => by
    unfold insortBy
    split
    · simp [List.filter_cons, filter_insortBy_neg f p x hx ys]
    · simp [List.filter_cons, hx]

/-- Stability: when equal-key elements never go after one another, the sort
preserves the relative order of each key class. -/
theorem filter_sortedBy {α : Type} (f : α → α → Bool) (p : α → Bool)
    (hcompat : ∀ x y, p x = true → f x y = true → p y = false) :
    ∀ l : List α, (sortedBy f l).filter p = l.filter p
  | [] => rfl
  | x :: xs => by
    by_cases hx : p x = true
    · rw [show sortedBy f (x :: xs) = insortBy f x (sortedBy f xs) from rfl,
        filter_insortBy_pos f p x hx (fun y hf => hcompat x y hx hf),
        filter_sortedBy f p hcompat xs]
      simp [List.filter_cons, hx]
    · have hx' : p x = false := by revert hx; cases p x <;> simp
      rw [show sortedBy f (x :: xs) = insortBy f x (sortedBy f xs) from rfl,
        filter_insortBy_neg f p x hx',
        filter_sortedBy f p hcompat xs]
      simp [List.filter_cons, hx']

/-- C10: the snowball ordering is a permutation of the input sorted
ascending by balance, the avalanche ordering a permutation sorted descending
by interest rate, and both are stable: the debts of any fixed balance
(resp. interest rate) appear in exactly their input order, so ties are
broken by input position. -/
theorem debt_orderings_sorted_and_stable (debts : List Debt) :
    (snowballOrder debts).Perm debts ∧
    (snowballOrder debts).Pairwise (fun a b => a.balance ≤ b.balance) ∧
    (∀ b : ℚ, (snowballOrder debts).filter (fun d => decide (d.balance = b)) =
      debts.filter (fun d => decide (d.balance = b))) ∧
    (avalancheOrder debts).Perm debts ∧
    (avalancheOrder debts).Pairwise
      (fun a b => b.interest_rate ≤ a.interest_rate) ∧
    (∀ r : ℚ, (avalancheOrder debts).filter
        (fun d => decide (d.interest_rate = r)) =
      debts.filter (fun d => decide (d.interest_rate = r))) := by
  refine ⟨perm_sortedBy _ debts, ?_, ?_, perm_sortedBy _ debts, ?_, ?_⟩
  · exact pairwise_sortedBy (fun x y => decide (y.balance < x.balance))
      (fun a b => a.balance ≤ b.balance)
      (fun a b c hab hbc => le_trans hab hbc)
      (fun a b hf => le_of_not_lt (by simpa using hf))
      (fun a b hf => le_of_lt (by simpa using hf)) debts
  · intro b
    refine filter_sortedBy _ _ ?_ debts
    intro x y hx hf
    have hxb : x.balance = b := by simpa using hx
    have hyx : y.balance < x.balance := by simpa using hf
    simp [hxb ▸ ne_of_lt hyx]
  · exact pairwise_sortedBy (fun x y => decide (x.interest_rate < y.interest_rate))
      (fun a b => b.interest_rate ≤ a.interest_rate)
      (fun a b c hab hbc => le_trans hbc hab)
      (fun a b hf => le_of_not_lt (by simpa using hf))
      (fun a b hf => le_of_lt (by simpa using hf)) debts
  · intro r
    refine filter_sortedBy _ _ ?_ debts
    intro x y hx hf
    have hxr : x.interest_rate = r := by simpa using hx
    have hxy : x.interest_rate < y.interest_rate := by simpa using hf
    simp [show y.interest_rate ≠ r from hxr ▸ (ne_of_lt hxy).symm]

end RTAcademy
